import Mathlib

/-!
# Verification of the Readwise MCP server's pagination, projection and auth logic

Shallow embedding of `src/readwise_client.py` (the client revision with
`fetch_all` support), `src/server/readwise_client.py` (the simpler server
revision) and the pure parts of `src/server/main.py` (tool-layer filtering,
content processing, update-body construction, auth middleware decision).

Remote responses are modelled as the sequence of pages the remote serves
during one aggregation loop: each page is the `results` array together with a
Boolean saying whether a continuation indicator (`nextPageCursor` for the
reader API, `next` for the highlights API) is present in that response.
-/

namespace Readwise

/-- JSON-ish values stored in a document / update-body dictionary: `null`,
strings, and arrays of strings (tags).  Python dicts are modelled as
association lists `List (String × JValue)`. -/
inductive JValue where
  | null
  | str (s : String)
  | arr (xs : List String)
deriving DecidableEq

/-- A Python dict holding a remote entity (keys are unique in actual dicts). -/
abbrev Doc := List (String × JValue)

/-- `doc.get(k)`: the value bound to `k`, if the key is present (keys are
unique in a dict, so the first binding is the binding). -/
def dget : Doc → String → Option JValue
  | [], _ => none
  | (k', v) :: rest, k => if k' == k then some v else dget rest k

/-- `doc.pop(k, None)`'s effect on the dict: remove the binding for `k`. -/
def dpop (d : Doc) (k : String) : Doc :=
  d.filter (fun p => !(p.1 == k))

/-- `doc[k] = v` when `k` is already present: replace the bound value. -/
def dset (d : Doc) (k : String) (v : JValue) : Doc :=
  d.map (fun p => if p.1 == k then (k, v) else p)

/-- One remote page response: the `results` list and whether a continuation
indicator (`nextPageCursor` / `next`) is present in the response. -/
abbrev Page (α : Type) := List α × Bool

/-! ## A stable remote snapshot and the pages it serves

`chunkPages k items` is the page sequence a stable remote holding `items`
serves at page size `k`: consecutive chunks of `k` items, each carrying a
continuation indicator except the last; an empty library is served as a
single empty page with no indicator.  Structural recursion on a fuel bound
(`items.length` suffices, since every step drops `k ≥ 1` items) keeps the
definition kernel-computable. -/

def chunkPagesF {α : Type} (k : Nat) : Nat → List α → List (Page α)
  | 0, items => [(items, false)]
  | fuel + 1, items =>
    if items.length ≤ k ∨ k = 0 then [(items, false)]
    else (items.take k, true) :: chunkPagesF k fuel (items.drop k)

def chunkPages {α : Type} (k : Nat) (items : List α) : List (Page α) :=
  chunkPagesF k items.length items

/-- The page sequences a stable remote can serve: every page carries a
continuation indicator and nonempty results, except the final page, which
carries no indicator (and may be empty, e.g. for an empty library). -/
inductive Serves {α : Type} : List (Page α) → Prop where
  | last (results : List α) : Serves [(results, false)]
  | cons (results : List α) (rest : List (Page α)) :
      results ≠ [] → Serves rest → Serves ((results, true) :: rest)

/-! ## `src/readwise_client.py` — rich client revision -/

/-- Pagination loop of `ReadwiseClient.list_documents`
(src/readwise_client.py lines 83–105).  `limit = none` models
`limit=None` (`fetch_all = limit is None`); `acc` is `all_results`.
Loop body: fetch; `if not results: break`; extend; `if not fetch_all and
len(all_results) >= limit: return all_results[:limit]`; follow
`nextPageCursor` if present, else break; finally
`return all_results if fetch_all else all_results[:limit]`. -/
def list_documents_loop {α : Type} (limit : Option Nat) (acc : List α) :
    List (Page α) → List α
  | [] =>
    match limit with
    | none => acc
    | some n => acc.take n
  | (results, hasNext) :: rest =>
    if results.isEmpty then
      match limit with
      | none => acc
      | some n => acc.take n
    else
      let acc' := acc ++ results
      match limit with
      | some n =>
        if n ≤ acc'.length then acc'.take n
        else if hasNext then list_documents_loop (some n) acc' rest
        else acc'.take n
      | none =>
        if hasNext then list_documents_loop none acc' rest else acc'

/-- `ReadwiseClient.list_documents` (src/readwise_client.py lines 53–105),
applied to the pages the remote serves for its filter parameters. -/
def list_documents {α : Type} (limit : Option Nat) (pages : List (Page α)) : List α :=
  list_documents_loop limit [] pages

/-- The fetch-all loop shared, line for line, by the `fetch_all=True`
branches of `ReadwiseClient.list_highlights` (src/readwise_client.py lines
155–184), `ReadwiseClient.search_highlights` (lines 222–248) and
`ReadwiseClient.list_books` (lines 282–311): fetch with `page_size=1000`;
`if not results: break`; extend `all_results`; `if not response.get("next"):
break`; `current_page += 1`. -/
def v2_fetch_all_loop {α : Type} (acc : List α) : List (Page α) → List α
  | [] => acc
  | (results, hasNext) :: rest =>
    if results.isEmpty then acc
    else if hasNext then v2_fetch_all_loop (acc ++ results) rest
    else acc ++ results

/-- `ReadwiseClient.list_highlights(..., fetch_all=True)`
(src/readwise_client.py lines 155–184): the `results` field of the returned
dict (its `count` is the length of this list). -/
def list_highlights_fetch_all {α : Type} (pages : List (Page α)) : List α :=
  v2_fetch_all_loop [] pages

/-- `ReadwiseClient.search_highlights(..., fetch_all=True)`
(src/readwise_client.py lines 222–248). -/
def search_highlights_fetch_all {α : Type} (pages : List (Page α)) : List α :=
  v2_fetch_all_loop [] pages

/-- `ReadwiseClient.list_books(..., fetch_all=True)`
(src/readwise_client.py lines 282–311). -/
def list_books_fetch_all {α : Type} (pages : List (Page α)) : List α :=
  v2_fetch_all_loop [] pages

/-- `ReadwiseClient.get_book_highlights` (src/readwise_client.py lines
313–323): `return await self.list_highlights(book_id=book_id,
fetch_all=True)`; `pages` are the pages the remote serves for that book. -/
def get_book_highlights {α : Type} (pages : List (Page α)) : List α :=
  list_highlights_fetch_all pages

/-- Pagination loop of `ReadwiseClient.export_highlights`
(src/readwise_client.py lines 325–356; identical in
src/server/readwise_client.py lines 180–211).  Besides `all_highlights`
(`acc`) it records the request parameters issued: each iteration sets
`params["page"] = page` and `params["page_size"] = 1000` before the request,
so `reqs` collects the `(page, page_size)` pairs in request order. -/
def export_loop {α : Type} (page : Nat) (acc : List α) (reqs : List (Nat × Nat)) :
    List (Page α) → List α × List (Nat × Nat)
  | [] => (acc, reqs)
  | (results, hasNext) :: rest =>
    let reqs' := reqs ++ [(page, 1000)]
    if results.isEmpty then (acc, reqs')
    else if hasNext then export_loop (page + 1) (acc ++ results) reqs' rest
    else (acc ++ results, reqs')

/-- `ReadwiseClient.export_highlights`: the returned list of highlights and
the `(page, page_size)` request parameters issued, starting at page 1. -/
def export_highlights {α : Type} (pages : List (Page α)) : List α × List (Nat × Nat) :=
  export_loop 1 [] [] pages

/-! ## `src/server/readwise_client.py` — drifted server revision -/

/-- Pagination loop of the server revision's `ReadwiseClient.list_documents`
(src/server/readwise_client.py lines 53–84): `while len(all_results) <
limit:` fetch; `if not results: break`; extend; follow `nextPageCursor` or
break; finally `return all_results[:limit]`.  The while-condition is checked
before every fetch. -/
def server_list_documents_loop {α : Type} (limit : Nat) (acc : List α) :
    List (Page α) → List α
  | [] => acc.take limit
  | (results, hasNext) :: rest =>
    if limit ≤ acc.length then acc.take limit
    else if results.isEmpty then acc.take limit
    else if hasNext then server_list_documents_loop limit (acc ++ results) rest
    else (acc ++ results).take limit

/-- Server revision `ReadwiseClient.list_documents` (limit is a plain int,
default 20; there is no `fetch_all`). -/
def server_list_documents {α : Type} (limit : Nat) (pages : List (Page α)) : List α :=
  server_list_documents_loop limit [] pages

/-- What the remote serves for a single page-number request: page `page`
(1-based) of `pageSize` items out of the stable snapshot `items`. -/
def servePage {α : Type} (pageSize page : Nat) (items : List α) : List α :=
  (items.drop ((page - 1) * pageSize)).take pageSize

/-- Server revision `ReadwiseClient.list_highlights`
(src/server/readwise_client.py lines 121–137): a single request for
(`page_size`, `page`); the returned dict's `results` field is the page the
remote serves. -/
def server_list_highlights {α : Type} (pageSize page : Nat) (items : List α) : List α :=
  servePage pageSize page items

/-- Server revision `ReadwiseClient.get_book_highlights`
(src/server/readwise_client.py lines 176–178):
`return await self.list_highlights(book_id=book_id)` — a single page-1
request at the default `page_size=100`. -/
def server_get_book_highlights {α : Type} (items : List α) : List α :=
  server_list_highlights 100 1 items

/-! ## Python string helpers

`str.replace`, `str.lower`, `str.startswith` and the `in` operator, modelled
on `List Char` so that every definition is kernel-computable.  `pyReplaceAux`
replaces non-overlapping occurrences left to right and does not rescan
replaced text, exactly as CPython does; the fuel argument (the scanned
string's length suffices, since every step consumes at least one character)
makes the recursion structural. -/

def pyReplaceAux (pat rep : List Char) : Nat → List Char → List Char
  | _, [] => []
  | 0, s => s
  | fuel + 1, c :: rest =>
    if pat ≠ [] ∧ pat.isPrefixOf (c :: rest) then
      rep ++ pyReplaceAux pat rep fuel ((c :: rest).drop pat.length)
    else
      c :: pyReplaceAux pat rep fuel rest

/-- Python `s.replace(pat, rep)` for a nonempty `pat` (the code only ever
replaces the nonempty pattern `"Bearer "`). -/
def pyReplace (s pat rep : String) : String :=
  ⟨pyReplaceAux pat.data rep.data s.data.length s.data⟩

/-- Python `needle in hay` on character lists (substring occurrence). -/
def containsSub (pat : List Char) : List Char → Bool
  | [] => pat.isEmpty
  | c :: rest => pat.isPrefixOf (c :: rest) || containsSub pat rest

/-- Python `s.lower()` (ASCII-adequate: char-wise lowering). -/
def pyLower (s : String) : String := ⟨s.data.map Char.toLower⟩

/-- Python truthiness of an optional string (`None` and `""` are falsy). -/
def pyTruthyStr : Option String → Bool
  | none => false
  | some s => !(s == "")

/-- Python truthiness of an optional list (`None` and `[]` are falsy). -/
def pyTruthyList : Option (List String) → Bool
  | none => false
  | some l => !l.isEmpty

/-! ## `src/server/main.py` — auth middleware -/

/-- The paths `auth_middleware` exempts from authentication
(src/server/main.py lines 661–664). -/
def bypassPaths : List String :=
  ["/health", "/.well-known/oauth-protected-resource",
   "/.well-known/oauth-authorization-server", "/register"]

/-- The allow/deny decision of `auth_middleware` (src/server/main.py lines
660–682) as a pure function of the configured inbound secret `MCP_API_KEY`
(loaded from the environment, so `None` or a string, with Python truthiness),
the request path and the `authorization` header (absent headers read as `""`
via `request.headers.get("authorization", "")`).  `true` means the request is
passed on; `false` means a 401 response. -/
def auth_middleware (MCP_API_KEY : Option String) (path : String)
    (authHeader : Option String) : Bool :=
  if bypassPaths.contains path then true
  else if pyTruthyStr MCP_API_KEY then
    let header := authHeader.getD ""
    if !("Bearer ".data.isPrefixOf header.data) then false
    else pyReplace header "Bearer " "" == MCP_API_KEY.getD ""
  else true

/-! ## `src/readwise_client.py` `_request` error translation and the
tool-layer error contract -/

/-- What the remote transport yields for one request: a parsed 2xx JSON body,
or a non-2xx status with its response text. -/
inductive HttpResult (α : Type) where
  | ok (body : α)
  | httpError (status : Nat) (text : String)

/-- `ReadwiseClient._request` (src/readwise_client.py lines 19–44):
`response.raise_for_status()` turns a non-2xx response into
`Exception(f"Readwise API error: {status} - {text}")`, which aborts the
enclosing pagination loop; a 2xx response yields its body. -/
def requestE {α : Type} : HttpResult α → Except String α
  | .ok body => .ok body
  | .httpError status text =>
    .error ("Readwise API error: " ++ toString status ++ " - " ++ text)

/-- The `fetch_all=True` loop of `ReadwiseClient.list_highlights`
(src/readwise_client.py lines 155–184) over fallible responses: a raised
error propagates out of the loop immediately, discarding `all_results`. -/
def list_highlights_fetch_all_E {α : Type} (acc : List α) :
    List (HttpResult (Page α)) → Except String (List α)
  | [] => .ok acc
  | r :: rest =>
    match requestE r with
    | .error e => .error e
    | .ok (results, hasNext) =>
      if results.isEmpty then .ok acc
      else if hasNext then list_highlights_fetch_all_E (acc ++ results) rest
      else .ok (acc ++ results)

/-- The `try/except` wrapper every tool in src/server/main.py uses: a
successful body yields its summary string, and any exception `e` is caught
and converted to the string `f"Error: {e}"`.  The function is total — no
fault ever propagates to the MCP caller. -/
def toolResult : Except String String → String
  | .ok s => s
  | .error e => "Error: " ++ e

/-- The `readwise_list_highlights` tool with `fetch_all=True`
(src/server/main.py lines 319–352): delegates to the client's fetch-all
loop, then renders `f"Found {total_count} highlights (all pages):
{optimized}"` (the projection/serialization of the results list is the
`render` parameter — it plays no role in the error contract). -/
def readwise_list_highlights_tool {α : Type} (render : List α → String)
    (responses : List (HttpResult (Page α))) : String :=
  toolResult ((list_highlights_fetch_all_E [] responses).map
    (fun results =>
      "Found " ++ toString results.length ++ " highlights (all pages): " ++
        render results))

/-! ## `src/server/main.py` — `readwise_list_documents` tool processing -/

/-- The author client-side filter predicate of `readwise_list_documents`
(src/server/main.py lines 124–129): `doc.get("author") and author_lower in
doc["author"].lower()`.  A missing key or a `null`/empty value is falsy, so
the document is dropped; a non-string value would raise in Python and never
occurs for this field, modelled as falsy. -/
def author_match (author_lower : String) (d : Doc) : Bool :=
  match dget d "author" with
  | some (.str s) => !(s == "") && containsSub author_lower.data (pyLower s).data
  | _ => false

/-- The site_name client-side filter predicate of `readwise_list_documents`
(src/server/main.py lines 131–136), same shape as the author filter. -/
def site_name_match (site_lower : String) (d : Doc) : Bool :=
  match dget d "site_name" with
  | some (.str s) => !(s == "") && containsSub site_lower.data (pyLower s).data
  | _ => false

/-- The client-side filtering step of `readwise_list_documents`
(src/server/main.py lines 123–136): `if author:` (Python truthiness, so an
empty filter string applies no filter) then keep matching documents; then the
same for `site_name`. -/
def filter_documents (author site_name : Option String) (docs : List Doc) : List Doc :=
  let docs := if pyTruthyStr author
    then docs.filter (author_match (pyLower (author.getD "")))
    else docs
  if pyTruthyStr site_name
    then docs.filter (site_name_match (pyLower (site_name.getD "")))
    else docs

/-- The per-document truncation of `readwise_list_documents`
(src/server/main.py lines 143–145): `if "content" in doc and
len(doc["content"]) > content_max_length: doc["content"] =
doc["content"][:content_max_length] + "..."`. -/
def truncate_content (L : Nat) (d : Doc) : Doc :=
  match dget d "content" with
  | some (.str s) => if L < s.length then dset d "content" (.str (s.take L ++ "...")) else d
  | _ => d

/-- The content-processing step of `readwise_list_documents`
(src/server/main.py lines 139–145): `if not with_full_content:` pop the
`content` field from every document; `elif content_max_length:` (Python
truthiness, so `None` and `0` skip truncation) truncate long contents. -/
def process_content (with_full_content : Bool) (content_max_length : Option Nat)
    (docs : List Doc) : List Doc :=
  if !with_full_content then docs.map (fun d => dpop d "content")
  else
    match content_max_length with
    | none => docs
    | some L => if L = 0 then docs else docs.map (truncate_content L)

/-! ## `src/server/main.py` — `readwise_update_document` tool -/

/-- An outbound HTTP request of the API client. -/
structure Request where
  method : String
  url : String
  body : List (String × JValue)
deriving DecidableEq

/-- `ReadwiseClient.update_document` (src/readwise_client.py lines 107–109):
`PATCH {v3_base_url}/documents/{document_id}` with the updates dict as the
JSON body, passed through unchanged. -/
def update_document (document_id : String) (updates : List (String × JValue)) : Request :=
  { method := "PATCH"
    url := "https://readwise.io/api/v3" ++ "/documents/" ++ document_id
    body := updates }

/-- The `updates` dict built by `readwise_update_document`
(src/server/main.py lines 191–202): `updates = {}` followed by `if title:
updates["title"] = title` and likewise for author, summary, location and
tags — each a conditional insertion of a fresh key, so the dict is the
concatenation of the singletons whose value is truthy, in program order. -/
def build_updates (title author summary location : Option String)
    (tags : Option (List String)) : List (String × JValue) :=
  (if pyTruthyStr title then [("title", JValue.str (title.getD ""))] else [])
    ++ (if pyTruthyStr author then [("author", JValue.str (author.getD ""))] else [])
    ++ (if pyTruthyStr summary then [("summary", JValue.str (summary.getD ""))] else [])
    ++ (if pyTruthyStr location then [("location", JValue.str (location.getD ""))] else [])
    ++ (if pyTruthyList tags then [("tags", JValue.arr (tags.getD []))] else [])

/-- The request `readwise_update_document` (src/server/main.py lines
191–204) sends: `client.update_document(document_id, updates)`. -/
def readwise_update_document_request (document_id : String)
    (title author summary location : Option String)
    (tags : Option (List String)) : Request :=
  update_document document_id (build_updates title author summary location tags)

/-! ## `src/server/main.py` — `readwise_export_highlights` tool -/

/-- The `max_results` truncation of `readwise_export_highlights`
(src/server/main.py lines 571–576): `if max_results: highlights =
highlights[:max_results]` — Python truthiness, so `None` and `0` leave the
list untouched. -/
def readwise_export_highlights_truncate {α : Type} (max_results : Option Nat)
    (highlights : List α) : List α :=
  match max_results with
  | none => highlights
  | some n => if n = 0 then highlights else highlights.take n

/-- The list of highlights the `readwise_export_highlights` tool reports
(src/server/main.py lines 564–593): the client's full export, truncated by
`max_results`. -/
def readwise_export_highlights_result {α : Type} (max_results : Option Nat)
    (pages : List (Page α)) : List α :=
  readwise_export_highlights_truncate max_results (export_highlights pages).1

/-! ## Helper lemmas: accumulator laws and aggregation over served pages -/

theorem v2_loop_append {α : Type} (pages : List (Page α)) (acc : List α) :
    v2_fetch_all_loop acc pages = acc ++ v2_fetch_all_loop [] pages := by
  induction pages generalizing acc with
  | nil => simp [v2_fetch_all_loop]
  | cons p rest ih =>
    obtain ⟨results, hasNext⟩ := p
    by_cases he : results.isEmpty <;> cases hasNext <;>
      simp only [v2_fetch_all_loop, he, Bool.false_eq_true, ite_true, ite_false,
        if_true, if_false] <;>
      simp [ih (acc ++ results), ih results]

theorem v2_loop_serves {α : Type} {pages : List (Page α)} (h : Serves pages) :
    v2_fetch_all_loop [] pages = (pages.map Prod.fst).flatten := by
  induction h with
  | last results =>
    cases results <;>
      simp only [v2_fetch_all_loop, List.isEmpty_nil, List.isEmpty_cons, if_true,
        if_false, Bool.false_eq_true, ite_true, ite_false] <;> simp
  | cons results rest hne _ ih =>
    have he : results.isEmpty = false := by
      cases results with
      | nil => exact absurd rfl hne
      | cons a as => rfl
    simp only [v2_fetch_all_loop, he, Bool.false_eq_true, ite_false, ite_true, if_true]
    rw [v2_loop_append rest, ih]
    simp

theorem ld_loop_none_append {α : Type} (pages : List (Page α)) (acc : List α) :
    list_documents_loop none acc pages = acc ++ list_documents_loop none [] pages := by
  induction pages generalizing acc with
  | nil => simp [list_documents_loop]
  | cons p rest ih =>
    obtain ⟨results, hasNext⟩ := p
    by_cases he : results.isEmpty <;> cases hasNext <;>
      simp only [list_documents_loop, he, Bool.false_eq_true, ite_true, ite_false,
        if_true, if_false] <;>
      simp [ih (acc ++ results), ih results]

theorem ld_none_serves {α : Type} {pages : List (Page α)} (h : Serves pages) :
    list_documents_loop none [] pages = (pages.map Prod.fst).flatten := by
  induction h with
  | last results =>
    cases results <;> simp [list_documents_loop]
  | cons results rest hne _ ih =>
    have he : results.isEmpty = false := by
      cases results with
      | nil => exact absurd rfl hne
      | cons a as => rfl
    simp only [list_documents_loop, he, Bool.false_eq_true, ite_false, ite_true,
      if_true, if_false]
    rw [ld_loop_none_append rest ([] ++ results), ih]
    simp

theorem ld_loop_some_take {α : Type} (pages : List (Page α)) (acc : List α) (n : Nat) :
    list_documents_loop (some n) acc pages = (list_documents_loop none acc pages).take n := by
  induction pages generalizing acc with
  | nil => simp [list_documents_loop]
  | cons p rest ih =>
    obtain ⟨results, hasNext⟩ := p
    by_cases he : results.isEmpty
    · simp [list_documents_loop, he]
    · by_cases hn : n ≤ (acc ++ results).length
      all_goals cases hasNext
      all_goals simp only [list_documents_loop, he, hn, Bool.false_eq_true,
        ite_true, ite_false, if_true, if_false]
      · rw [ld_loop_none_append rest (acc ++ results),
          List.take_append_of_le_length hn]
      · exact ih (acc ++ results)

theorem server_loop_take {α : Type} (pages : List (Page α)) (acc : List α) (n : Nat) :
    server_list_documents_loop n acc pages = (list_documents_loop none acc pages).take n := by
  induction pages generalizing acc with
  | nil => simp [server_list_documents_loop, list_documents_loop]
  | cons p rest ih =>
    obtain ⟨results, hasNext⟩ := p
    by_cases hstop : n ≤ acc.length
    · have hacc : ∀ t : List α, (acc ++ t).take n = acc.take n := fun t =>
        List.take_append_of_le_length hstop
      by_cases he : results.isEmpty
      all_goals cases hasNext
      all_goals simp only [server_list_documents_loop, list_documents_loop, he,
        hstop, Bool.false_eq_true, ite_true, ite_false, if_true, if_false]
      · rw [hacc]
      · rw [ld_loop_none_append rest (acc ++ results), List.append_assoc, hacc]
    · by_cases he : results.isEmpty
      · simp [server_list_documents_loop, list_documents_loop, he, hstop]
      · cases hasNext
        all_goals simp only [server_list_documents_loop, list_documents_loop, he,
          hstop, Bool.false_eq_true, ite_true, ite_false, if_true, if_false]
        · exact ih (acc ++ results)

theorem export_loop_serves {α : Type} {pages : List (Page α)} (h : Serves pages) :
    ∀ (page : Nat) (acc : List α) (reqs : List (Nat × Nat)),
      export_loop page acc reqs pages =
        (acc ++ (pages.map Prod.fst).flatten,
         reqs ++ (List.range' page pages.length).map (fun p => (p, 1000))) := by
  induction h with
  | last results =>
    intro page acc reqs
    cases results <;> simp [export_loop]
  | cons results rest hne _ ih =>
    intro page acc reqs
    have he : results.isEmpty = false := by
      cases results with
      | nil => exact absurd rfl hne
      | cons a as => rfl
    simp only [export_loop, he, Bool.false_eq_true, ite_false, ite_true, if_true,
      if_false]
    rw [ih (page + 1) (acc ++ results) (reqs ++ [(page, 1000)])]
    simp [List.range'_succ]

/-! ## Helper lemmas: the pages a stable snapshot serves -/

theorem chunkPagesF_congr {α : Type} (k : Nat) :
    ∀ (fuel fuel' : Nat) (items : List α), items.length ≤ fuel →
      items.length ≤ fuel' → chunkPagesF k fuel items = chunkPagesF k fuel' items := by
  intro fuel
  induction fuel with
  | zero =>
    intro fuel' items h _
    have hnil : items = [] := List.length_eq_zero.mp (Nat.le_zero.mp h)
    subst hnil
    cases fuel' <;> simp [chunkPagesF]
  | succ f ih =>
    intro fuel' items h h'
    cases fuel' with
    | zero =>
      have hnil : items = [] := List.length_eq_zero.mp (Nat.le_zero.mp h')
      subst hnil
      simp [chunkPagesF]
    | succ f' =>
      simp only [chunkPagesF]
      by_cases hc : items.length ≤ k ∨ k = 0
      · rw [if_pos hc, if_pos hc]
      · rw [if_neg hc, if_neg hc]
        push_neg at hc
        obtain ⟨hlen, hk⟩ := hc
        have hd : (items.drop k).length ≤ f := by
          simp only [List.length_drop]; omega
        have hd' : (items.drop k).length ≤ f' := by
          simp only [List.length_drop]; omega
        rw [ih f' (items.drop k) hd hd']

theorem chunkPages_eq {α : Type} (k : Nat) (items : List α) (hk : 0 < k) :
    chunkPages k items =
      if items.length ≤ k then [(items, false)]
      else (items.take k, true) :: chunkPages k (items.drop k) := by
  by_cases hc : items.length ≤ k
  · rw [if_pos hc]
    unfold chunkPages
    cases hl : items.length with
    | zero => simp [chunkPagesF]
    | succ m =>
      simp only [chunkPagesF]
      rw [if_pos]
      rw [hl]
      left
      omega
  · rw [if_neg hc]
    unfold chunkPages
    push_neg at hc
    cases hl : items.length with
    | zero => omega
    | succ m =>
      simp only [chunkPagesF]
      rw [if_neg (by rw [hl]; omega)]
      have h2 : chunkPagesF k m (items.drop k) =
          chunkPagesF k (items.drop k).length (items.drop k) := by
        apply chunkPagesF_congr
        · simp only [List.length_drop]; omega
        · exact le_refl _
      rw [h2]

theorem chunkPages_serves {α : Type} (k : Nat) (hk : 0 < k) (items : List α) :
    Serves (chunkPages k items) := by
  have H : ∀ (n : Nat) (l : List α), l.length ≤ n → Serves (chunkPages k l) := by
    intro n
    induction n with
    | zero =>
      intro l h
      have hnil : l = [] := List.length_eq_zero.mp (Nat.le_zero.mp h)
      subst hnil
      rw [chunkPages_eq k [] hk, if_pos (by simp)]
      exact Serves.last []
    | succ m ih =>
      intro l h
      rw [chunkPages_eq k l hk]
      by_cases hc : l.length ≤ k
      · rw [if_pos hc]; exact Serves.last l
      · rw [if_neg hc]
        push_neg at hc
        refine Serves.cons _ _ ?_ (ih _ ?_)
        · intro habs
          have hlen := congrArg List.length habs
          simp only [List.length_take, List.length_nil] at hlen
          omega
        · simp only [List.length_drop]; omega
  exact H items.length items (le_refl _)

theorem chunkPages_flatten {α : Type} (k : Nat) (hk : 0 < k) (items : List α) :
    ((chunkPages k items).map Prod.fst).flatten = items := by
  have H : ∀ (n : Nat) (l : List α), l.length ≤ n →
      ((chunkPages k l).map Prod.fst).flatten = l := by
    intro n
    induction n with
    | zero =>
      intro l h
      have hnil : l = [] := List.length_eq_zero.mp (Nat.le_zero.mp h)
      subst hnil
      rw [chunkPages_eq k [] hk, if_pos (by simp)]
      simp
    | succ m ih =>
      intro l h
      rw [chunkPages_eq k l hk]
      by_cases hc : l.length ≤ k
      · rw [if_pos hc]; simp
      · rw [if_neg hc]
        push_neg at hc
        simp only [List.map_cons, List.flatten_cons]
        rw [ih (l.drop k) (by simp only [List.length_drop]; omega)]
        exact List.take_append_drop k l
  exact H items.length items (le_refl _)

/-! ## Helper lemmas: Python string replace -/

theorem isPrefixOf_append_self (l t : List Char) : l.isPrefixOf (l ++ t) = true := by
  induction l with
  | nil => simp [List.isPrefixOf]
  | cons a as ih => simp [List.isPrefixOf, ih]

theorem pyReplaceAux_not_contains (pat rep : List Char) :
    ∀ (s : List Char) (fuel : Nat), containsSub pat s = false → s.length ≤ fuel →
      pyReplaceAux pat rep fuel s = s := by
  intro s
  induction s with
  | nil => intro fuel _ _; cases fuel <;> rfl
  | cons c rest ih =>
    intro fuel hc hlen
    cases fuel with
    | zero => simp at hlen
    | succ f =>
      simp only [containsSub, Bool.or_eq_false_iff] at hc
      obtain ⟨hnp, hcr⟩ := hc
      simp only [pyReplaceAux]
      rw [if_neg]
      · rw [ih f hcr (by simp only [List.length_cons] at hlen; omega)]
      · rintro ⟨-, hp⟩
        rw [hnp] at hp
        exact Bool.false_ne_true hp

theorem pyReplaceAux_head_match (pat rep xs : List Char) (f : Nat) (hpat : pat ≠ []) :
    pyReplaceAux pat rep (f + 1) (pat ++ xs) = rep ++ pyReplaceAux pat rep f xs := by
  cases pat with
  | nil => exact absurd rfl hpat
  | cons c cs =>
    have hshape : (c :: cs) ++ xs = c :: (cs ++ xs) := rfl
    rw [hshape]
    simp only [pyReplaceAux]
    rw [if_pos ⟨by simp, by rw [← hshape]; exact isPrefixOf_append_self (c :: cs) xs⟩]
    rw [← hshape, List.drop_left]

theorem pyReplace_strip (key : String)
    (hk : containsSub "Bearer ".data key.data = false) :
    pyReplace ("Bearer " ++ key) "Bearer " "" = key := by
  unfold pyReplace
  have hdata : ("Bearer " ++ key).data = "Bearer ".data ++ key.data :=
    String.data_append "Bearer " key
  rw [hdata]
  have hlen : ("Bearer ".data ++ key.data).length = (key.data.length + 6) + 1 := by
    simp only [List.length_append, List.length_cons, List.length_nil]
    omega
  rw [hlen, pyReplaceAux_head_match _ _ _ _ (by decide),
    pyReplaceAux_not_contains _ _ _ _ hk (by omega)]
  rfl

theorem bearer_isPrefixOf_append (key : String) :
    ("Bearer ".data).isPrefixOf ("Bearer " ++ key).data = true := by
  rw [String.data_append]
  exact isPrefixOf_append_self _ _

/-! ## Helper lemmas: dict operations -/

theorem dget_dpop_self (d : Doc) (k : String) : dget (dpop d k) k = none := by
  induction d with
  | nil => rfl
  | cons p rest ih =>
    obtain ⟨k1, v1⟩ := p
    cases hb : (k1 == k) with
    | true => simpa [dpop, List.filter_cons, hb] using ih
    | false =>
      simp only [dpop, List.filter_cons] at ih ⊢
      simp only [hb, Bool.not_false, if_true, ite_true]
      simp only [dget, hb, Bool.false_eq_true, if_false, ite_false]
      exact ih

theorem dget_dpop_ne (d : Doc) (k k' : String) (h : k' ≠ k) :
    dget (dpop d k) k' = dget d k' := by
  induction d with
  | nil => rfl
  | cons p rest ih =>
    obtain ⟨k1, v1⟩ := p
    cases hb : (k1 == k) with
    | true =>
      have hk1 : k1 = k := beq_iff_eq.mp hb
      have hb2 : (k1 == k') = false := beq_eq_false_iff_ne.mpr (by rw [hk1]; exact Ne.symm h)
      simp only [dpop, List.filter_cons, hb, Bool.not_true, Bool.false_eq_true,
        if_false, ite_false]
      simp only [dget, hb2, Bool.false_eq_true, if_false, ite_false]
      exact ih
    | false =>
      simp only [dpop, List.filter_cons, hb, Bool.not_false, if_true, ite_true]
      simp only [dget]
      cases hb2 : (k1 == k') with
      | true => simp
      | false =>
        simp only [Bool.false_eq_true, if_false, ite_false]
        exact ih

theorem dget_dset_ne (d : Doc) (k k' : String) (v : JValue) (h : k' ≠ k) :
    dget (dset d k v) k' = dget d k' := by
  induction d with
  | nil => rfl
  | cons p rest ih =>
    obtain ⟨k1, v1⟩ := p
    cases hb : (k1 == k) with
    | true =>
      have hk1 : k1 = k := beq_iff_eq.mp hb
      have hbk : (k == k') = false := beq_eq_false_iff_ne.mpr (Ne.symm h)
      have hb2 : (k1 == k') = false := beq_eq_false_iff_ne.mpr (by rw [hk1]; exact Ne.symm h)
      simp only [dset, List.map_cons, hb, if_true, ite_true]
      simp only [dget, hbk, hb2, Bool.false_eq_true, if_false, ite_false]
      exact ih
    | false =>
      simp only [dset, List.map_cons, hb, Bool.false_eq_true, if_false, ite_false]
      simp only [dget]
      cases hb2 : (k1 == k') with
      | true => simp
      | false =>
        simp only [Bool.false_eq_true, if_false, ite_false]
        exact ih

theorem dget_dset_self (d : Doc) (k : String) (v : JValue)
    (h : ∃ w, dget d k = some w) : dget (dset d k v) k = some v := by
  induction d with
  | nil => simp [dget] at h
  | cons p rest ih =>
    obtain ⟨k1, v1⟩ := p
    cases hb : (k1 == k) with
    | true =>
      simp only [dset, List.map_cons, hb, if_true, ite_true]
      simp only [dget, beq_self_eq_true, if_true, ite_true]
    | false =>
      have h' : ∃ w, dget rest k = some w := by
        simpa [dget, hb] using h
      simp only [dset, List.map_cons, hb, Bool.false_eq_true, if_false, ite_false]
      simp only [dget, hb, Bool.false_eq_true, if_false, ite_false]
      exact ih h'

/-! ## Claim theorems -/

/-- Claim C1: every aggregation operation invoked with an unbounded limit
(`list_documents` with `limit=None`, the `fetch_all=True` branches of
`list_highlights` / `search_highlights` / `list_books`, and
`export_highlights`, which always aggregates) returns, for every page
sequence a stable remote serves, exactly the concatenation of the served
pages' results in server-yielded order — so no element is duplicated or
skipped beyond what the served snapshot itself contains. -/
theorem C1_unbounded_aggregation {α : Type} (pages : List (Page α)) (h : Serves pages) :
    list_documents none pages = (pages.map Prod.fst).flatten ∧
    list_highlights_fetch_all pages = (pages.map Prod.fst).flatten ∧
    search_highlights_fetch_all pages = (pages.map Prod.fst).flatten ∧
    list_books_fetch_all pages = (pages.map Prod.fst).flatten ∧
    (export_highlights pages).1 = (pages.map Prod.fst).flatten := by
  refine ⟨ld_none_serves h, v2_loop_serves h, v2_loop_serves h, v2_loop_serves h, ?_⟩
  rw [export_highlights, export_loop_serves h 1 [] []]
  simp

/-- Claim C1 witness: a concrete two-page serve, all five operations. -/
theorem C1_unbounded_aggregation_witness :
    list_documents none [([0, 1], true), ([2], false)] = [0, 1, 2] ∧
    list_highlights_fetch_all [([0, 1], true), ([2], false)] = [0, 1, 2] ∧
    search_highlights_fetch_all [([0, 1], true), ([2], false)] = [0, 1, 2] ∧
    list_books_fetch_all [([0, 1], true), ([2], false)] = [0, 1, 2] ∧
    (export_highlights [([0, 1], true), ([2], false)]).1 = [0, 1, 2] := by
  have h := C1_unbounded_aggregation ([([0, 1], true), ([2], false)] : List (Page Nat))
    (Serves.cons _ _ (by decide) (Serves.last _))
  simpa using h

/-- Claim C2: with a finite limit `n`, `list_documents` returns at most `n`
elements, exactly the first `n` of its unbounded (`limit=None`) result, and
exactly `n` of them whenever the aggregated pages hold at least `n`; the
server revision's `list_documents` returns the same truncated aggregate.
This holds for arbitrary page sequences, well-formed or not. -/
theorem C2_finite_limit_prefix {α : Type} (n : Nat) (pages : List (Page α)) :
    (list_documents (some n) pages).length ≤ n ∧
    list_documents (some n) pages = (list_documents none pages).take n ∧
    (n ≤ (list_documents none pages).length →
      (list_documents (some n) pages).length = n) ∧
    server_list_documents n pages = (list_documents none pages).take n := by
  have h2 : list_documents (some n) pages = (list_documents none pages).take n :=
    ld_loop_some_take pages [] n
  refine ⟨?_, h2, ?_, server_loop_take pages [] n⟩
  · rw [h2]
    exact List.length_take_le n _
  · intro hn
    rw [h2, List.length_take]
    omega

/-- The page structure a stable snapshot of 2500 items serves at page size
1000: two full pages with a `next` indicator, then a 500-item page without. -/
theorem chunkPages_range_2500 : chunkPages 1000 (List.range 2500) =
    [((List.range 2500).take 1000, true),
     (((List.range 2500).drop 1000).take 1000, true),
     (((List.range 2500).drop 1000).drop 1000, false)] := by
  rw [chunkPages_eq 1000 _ (by norm_num), if_neg (by simp)]
  rw [chunkPages_eq 1000 _ (by norm_num), if_neg (by simp)]
  rw [chunkPages_eq 1000 _ (by norm_num), if_pos (by simp)]

/-- Claim C3: `export_highlights` against a remote paginating 2500 highlights
in pages of 1000 returns all 2500, issues exactly 3 requests — pages 1, 2, 3,
each with `page_size=1000`, the served pages holding 1000, 1000 and 500
results — and terminates on the third page's absent `next` indicator; and in
general, over any served page sequence, the loop appends every page's
results and issues one request per served page at consecutive page numbers
from 1. -/
theorem C3_export_2500_scenario :
    ((export_highlights (chunkPages 1000 (List.range 2500))).1 = List.range 2500 ∧
     (export_highlights (chunkPages 1000 (List.range 2500))).2 =
       [(1, 1000), (2, 1000), (3, 1000)] ∧
     (chunkPages 1000 (List.range 2500)).map (fun p => p.1.length) =
       [1000, 1000, 500] ∧
     (chunkPages 1000 (List.range 2500)).map Prod.snd = [true, true, false]) ∧
    ∀ (pages : List (Page Nat)), Serves pages →
      (export_highlights pages).1 = (pages.map Prod.fst).flatten ∧
      (export_highlights pages).2 =
        (List.range' 1 pages.length).map (fun p => (p, 1000)) := by
  have hserves : Serves (chunkPages 1000 (List.range 2500)) :=
    chunkPages_serves 1000 (by norm_num) _
  have hgen : ∀ (pages : List (Page Nat)), Serves pages →
      (export_highlights pages).1 = (pages.map Prod.fst).flatten ∧
      (export_highlights pages).2 =
        (List.range' 1 pages.length).map (fun p => (p, 1000)) := by
    intro pages h
    rw [export_highlights, export_loop_serves h 1 [] []]
    simp
  refine ⟨⟨?_, ?_, ?_, ?_⟩, hgen⟩
  · rw [export_highlights, export_loop_serves hserves 1 [] []]
    simpa using chunkPages_flatten 1000 (by norm_num) (List.range 2500)
  · rw [export_highlights, export_loop_serves hserves 1 [] []]
    have hlen : (chunkPages 1000 (List.range 2500)).length = 3 := by
      rw [chunkPages_range_2500]
      rfl
    rw [hlen]
    decide
  · rw [chunkPages_range_2500]
    simp
  · rw [chunkPages_range_2500]
    rfl

/-- Claim C5: the rich client's `get_book_highlights` aggregates every page
the remote serves for the book; the server revision's issues one page-1
request at the default `page_size=100` and, for a book holding 150
highlights, returns only the first 100 — contradicting the claim and the
tool's own docstring (src/server/main.py lines 500, 512). -/
theorem C5_get_book_highlights_divergence :
    get_book_highlights (chunkPages 1000 (List.range 150)) = List.range 150 ∧
    server_get_book_highlights (List.range 150) = List.range 100 ∧
    (List.range 150).length = 150 ∧ (List.range 100).length = 100 := by
  refine ⟨?_, ?_, by simp, by simp⟩
  · rw [get_book_highlights, list_highlights_fetch_all,
      v2_loop_serves (chunkPages_serves 1000 (by norm_num) _),
      chunkPages_flatten 1000 (by norm_num)]
  · rw [server_get_book_highlights, server_list_highlights, servePage]
    norm_num
    rw [List.take_range]
    norm_num

/-- Claim C4: when a request of a multi-page aggregation fails — here the
second page, after a nonempty first page with a `next` indicator — the tool
returns the single error string built from the client's exception
(`f"Error: {e}"` wrapping `f"Readwise API error: {status} - {text}"`), which
carries zero elements of the already-fetched first page; the tool is a total
function into `String`, so no fault propagates to the caller. -/
theorem C4_error_mid_aggregation {α : Type} (render : List α → String)
    (p1 : List α) (h : p1 ≠ []) (status : Nat) (text : String)
    (rest : List (HttpResult (Page α))) :
    readwise_list_highlights_tool render
        (.ok (p1, true) :: .httpError status text :: rest) =
      "Error: " ++ ("Readwise API error: " ++ toString status ++ " - " ++ text) := by
  have he : p1.isEmpty = false := by
    cases p1 with
    | nil => exact absurd rfl h
    | cons a as => rfl
  rw [readwise_list_highlights_tool]
  simp only [list_highlights_fetch_all_E, requestE, he, Bool.false_eq_true,
    ite_false, ite_true, if_true, if_false]
  rfl

/-- Claim C4 witness: a 401 on page 2 after one fetched highlight. -/
theorem C4_error_mid_aggregation_witness :
    readwise_list_highlights_tool (fun l : List Nat => toString l)
        [.ok ([7], true), .httpError 401 "Unauthorized"] =
      "Error: Readwise API error: 401 - Unauthorized" := by
  have h := C4_error_mid_aggregation (fun l : List Nat => toString l) [7]
    (by decide) 401 "Unauthorized" []
  rw [h]
  decide

/-- Claim C6 counterexample: with secret `"k"` configured, the path
`/register` — neither the liveness path nor a `.well-known` OAuth-discovery
path — is allowed with no credential at all; and the non-bypass path `/mcp`
is allowed with header `"Bearer Bearer k"`, which is not exactly
`"Bearer " ++ "k"` (the code strips every occurrence of `"Bearer "`). -/
theorem C6_counterexample :
    auth_middleware (some "k") "/register" none = true ∧
    "/register" ≠ "/health" ∧
    containsSub ".well-known".data "/register".data = false ∧
    auth_middleware (some "k") "/mcp" (some "Bearer Bearer k") = true ∧
    "Bearer Bearer k" ≠ "Bearer " ++ "k" := by decide

/-- Claim C6 (amended): when an inbound secret is configured (nonempty),
requests to `/health`, the two `.well-known` OAuth-discovery paths and
`/register` are allowed without any credential; every other path is allowed
iff the authorization header starts with `"Bearer "` and stripping every
occurrence of `"Bearer "` from it yields the secret — in particular a header
of exactly `"Bearer " ++ secret` is allowed whenever the secret does not
itself contain `"Bearer "`; when no secret is configured, every request is
allowed. -/
theorem C6_auth_decision (key path : String) (header : Option String)
    (hkey : key ≠ "") (hpath : bypassPaths.contains path = false) :
    (auth_middleware (some key) path header = true ↔
      ("Bearer ".data.isPrefixOf (header.getD "").data = true ∧
        pyReplace (header.getD "") "Bearer " "" = key)) ∧
    (containsSub "Bearer ".data key.data = false →
      auth_middleware (some key) path (some ("Bearer " ++ key)) = true) ∧
    (∀ (p : String) (h2 : Option String), auth_middleware none p h2 = true) ∧
    (∀ (p : String) (h2 : Option String), bypassPaths.contains p = true →
      auth_middleware (some key) p h2 = true) := by
  have htruthy : pyTruthyStr (some key) = true := by
    simp [pyTruthyStr, hkey]
  refine ⟨?_, ?_, ?_, ?_⟩
  · rw [auth_middleware]
    simp only [hpath, Bool.false_eq_true, if_false, ite_false, htruthy, if_true,
      ite_true]
    cases hp : ("Bearer ".data.isPrefixOf (header.getD "").data) with
    | true => simp [beq_iff_eq]
    | false => simp
  · intro hk
    rw [auth_middleware]
    simp only [hpath, Bool.false_eq_true, if_false, ite_false, htruthy, if_true,
      ite_true, Option.getD_some]
    rw [bearer_isPrefixOf_append key]
    simp only [Bool.not_true, Bool.false_eq_true, if_false, ite_false]
    rw [pyReplace_strip key hk]
    simp
  · intro p h2
    rw [auth_middleware]
    cases hb : bypassPaths.contains p <;> simp [hb, pyTruthyStr]
  · intro p h2 hb
    rw [auth_middleware, if_pos hb]

/-- Claim C6 witness: the amended decision at concrete inputs — exact
bearer header accepted on a non-bypass path, everything allowed with no
secret configured. -/
theorem C6_auth_decision_witness :
    auth_middleware (some "k") "/mcp" (some "Bearer k") = true ∧
    auth_middleware none "/mcp" none = true := by
  have h := C6_auth_decision "k" "/mcp" (some "Bearer k") (by decide) (by decide)
  exact ⟨h.1.mpr ⟨by decide, by decide⟩, h.2.2.1 "/mcp" none⟩

/-- Claim C9: in the export tool, `max_results=0` is treated exactly like no
limit — only a truthy `max_results` triggers truncation — so the tool
returns every exported highlight rather than an empty list; for a positive
`max_results = n` it returns (at most) the first `n`. -/
theorem C9_export_max_results_truthiness {α : Type} (pages : List (Page α)) :
    readwise_export_highlights_result (some 0) pages = (export_highlights pages).1 ∧
    readwise_export_highlights_result none pages = (export_highlights pages).1 ∧
    ∀ n : Nat, 0 < n →
      readwise_export_highlights_result (some n) pages =
        ((export_highlights pages).1).take n ∧
      (readwise_export_highlights_result (some n) pages).length ≤ n := by
  refine ⟨rfl, rfl, ?_⟩
  intro n hn
  have hne : ¬(n = 0) := by omega
  constructor
  · rw [readwise_export_highlights_result, readwise_export_highlights_truncate]
    simp [hne]
  · rw [readwise_export_highlights_result, readwise_export_highlights_truncate]
    simp only [hne, if_false, ite_false]
    exact List.length_take_le n _

/-! ### Branch lemmas for the content-truncation step -/

theorem trunc_long (L : Nat) (d : Doc) (s : String)
    (hs : dget d "content" = some (.str s)) (hlen : L < s.length) :
    truncate_content L d = dset d "content" (.str (s.take L ++ "...")) := by
  unfold truncate_content
  rw [hs]
  simp only [if_pos hlen, ite_true]

theorem trunc_short (L : Nat) (d : Doc) (s : String)
    (hs : dget d "content" = some (.str s)) (hlen : s.length ≤ L) :
    truncate_content L d = d := by
  unfold truncate_content
  rw [hs]
  simp only [Nat.not_lt.mpr hlen, if_false, ite_false]

theorem trunc_missing (L : Nat) (d : Doc) (hs : dget d "content" = none) :
    truncate_content L d = d := by
  unfold truncate_content
  rw [hs]

theorem truncate_content_other (L : Nat) (d : Doc) (k : String) (hk : k ≠ "content") :
    dget (truncate_content L d) k = dget d k := by
  unfold truncate_content
  cases hc : dget d "content" with
  | none => rfl
  | some v =>
    cases v with
    | null => rfl
    | arr xs => rfl
    | str s =>
      by_cases hl : L < s.length
      · simp only [if_pos hl, ite_true]
        exact dget_dset_ne d "content" k _ hk
      · simp only [if_neg hl, ite_false]

/-- Claim C7 counterexample: with full content requested and
`content_max_length = 0`, a document whose content (`"ab"`, length 2 > 0)
the claim as stated says must become `"ab"[:0] + "..." = "..."` is returned
unchanged — the code's `elif content_max_length:` treats 0 as falsy and
skips truncation entirely. -/
theorem C7_counterexample :
    process_content true (some 0) [[("content", JValue.str "ab")]] =
      [[("content", JValue.str "ab")]] ∧
    0 < ("ab" : String).length ∧
    JValue.str ("ab".take 0 ++ "...") ≠ JValue.str "ab" := by decide

/-- Claim C7 (amended): when full content is not requested, every returned
document has its `content` field absent and all other fields unchanged; when
full content is requested together with a positive maximum length `L`, a
document whose string content is longer than `L` has its content replaced by
the first `L` characters plus the `"..."` marker, every other document is
returned unchanged, and no field other than `content` is altered.  (For
`L = 0` the code skips truncation — see the counterexample.) -/
theorem C7_content_processing (L : Nat) (hL : 0 < L) (ml : Option Nat)
    (docs : List Doc) :
    (List.Forall₂ (fun d d' => dget d' "content" = none ∧
        ∀ k, k ≠ "content" → dget d' k = dget d k)
      docs (process_content false ml docs)) ∧
    (List.Forall₂ (fun d d' =>
        (∀ s, dget d "content" = some (JValue.str s) → L < s.length →
          d' = dset d "content" (JValue.str (s.take L ++ "..."))) ∧
        (∀ s, dget d "content" = some (JValue.str s) → s.length ≤ L → d' = d) ∧
        (dget d "content" = none → d' = d) ∧
        ∀ k, k ≠ "content" → dget d' k = dget d k)
      docs (process_content true (some L) docs)) := by
  constructor
  · have hmap : process_content false ml docs = docs.map (fun d => dpop d "content") := by
      simp [process_content]
    rw [hmap, List.forall₂_map_right_iff]
    exact List.forall₂_same.mpr (fun d _ =>
      ⟨dget_dpop_self d "content", fun k hk => dget_dpop_ne d "content" k hk⟩)
  · have hne : ¬(L = 0) := by omega
    have hmap : process_content true (some L) docs = docs.map (truncate_content L) := by
      simp [process_content, hne]
    rw [hmap, List.forall₂_map_right_iff]
    refine List.forall₂_same.mpr (fun d _ => ⟨?_, ?_, ?_, ?_⟩)
    · intro s hs hlen
      exact trunc_long L d s hs hlen
    · intro s hs hlen
      exact trunc_short L d s hs hlen
    · intro hs
      exact trunc_missing L d hs
    · intro k hk
      exact truncate_content_other L d k hk

/-- Claim C7 witness: the amended processing at a concrete document with a
two-character content and a title, for `L = 1`. -/
theorem C7_content_processing_witness :
    (List.Forall₂ (fun d d' => dget d' "content" = none ∧
        ∀ k, k ≠ "content" → dget d' k = dget d k)
      [[("content", JValue.str "ab"), ("title", JValue.str "t")]]
      (process_content false none
        [[("content", JValue.str "ab"), ("title", JValue.str "t")]])) ∧
    (List.Forall₂ (fun d d' =>
        (∀ s, dget d "content" = some (JValue.str s) → 1 < s.length →
          d' = dset d "content" (JValue.str (s.take 1 ++ "..."))) ∧
        (∀ s, dget d "content" = some (JValue.str s) → s.length ≤ 1 → d' = d) ∧
        (dget d "content" = none → d' = d) ∧
        ∀ k, k ≠ "content" → dget d' k = dget d k)
      [[("content", JValue.str "ab"), ("title", JValue.str "t")]]
      (process_content true (some 1)
        [[("content", JValue.str "ab"), ("title", JValue.str "t")]])) :=
  C7_content_processing 1 (by decide) none
    [[("content", JValue.str "ab"), ("title", JValue.str "t")]]

/-! ### Membership characterization of the update body -/

theorem mem_str_chunk (k : String) (v : Option String) (kv : String × JValue) :
    (kv ∈ (if pyTruthyStr v then [(k, JValue.str (v.getD ""))] else [])) ↔
      (∃ s, v = some s ∧ s ≠ "" ∧ kv = (k, JValue.str s)) := by
  cases v with
  | none => simp [pyTruthyStr]
  | some s =>
    by_cases hs : s = "" <;> simp [pyTruthyStr, hs]

theorem mem_list_chunk (k : String) (v : Option (List String)) (kv : String × JValue) :
    (kv ∈ (if pyTruthyList v then [(k, JValue.arr (v.getD []))] else [])) ↔
      (∃ l, v = some l ∧ l ≠ [] ∧ kv = (k, JValue.arr l)) := by
  cases v with
  | none => simp [pyTruthyList]
  | some l =>
    by_cases hl : l = [] <;> simp [pyTruthyList, hl, List.isEmpty_iff]

theorem mem_build_updates (title author summary location : Option String)
    (tags : Option (List String)) (kv : String × JValue) :
    kv ∈ build_updates title author summary location tags ↔
      ((∃ s, title = some s ∧ s ≠ "" ∧ kv = ("title", JValue.str s)) ∨
       (∃ s, author = some s ∧ s ≠ "" ∧ kv = ("author", JValue.str s)) ∨
       (∃ s, summary = some s ∧ s ≠ "" ∧ kv = ("summary", JValue.str s)) ∨
       (∃ s, location = some s ∧ s ≠ "" ∧ kv = ("location", JValue.str s)) ∨
       (∃ l, tags = some l ∧ l ≠ [] ∧ kv = ("tags", JValue.arr l))) := by
  simp only [build_updates, List.mem_append, mem_str_chunk, mem_list_chunk, or_assoc]

/-- Claim C8 counterexample: an explicitly provided empty-string title is a
provided field, yet the update body sent to the PATCH endpoint is empty —
`if title:` drops falsy values, so the body does not contain exactly the
provided fields. -/
theorem C8_counterexample :
    (readwise_update_document_request "d1" (some "") none none none none).body = [] ∧
    (some "" : Option String) ≠ none := by decide

/-- Claim C8 (amended): the PATCH body contains exactly the caller-provided
fields whose values are truthy (non-None and nonempty): a field the caller
did not provide never appears; a provided empty string or empty tag list is
likewise omitted; a provided nonempty value appears with exactly that value;
and no key outside title/author/summary/location/tags ever appears. -/
theorem C8_update_body_exactness (document_id : String)
    (title author summary location : Option String) (tags : Option (List String)) :
    (readwise_update_document_request document_id title author summary location
      tags).method = "PATCH" ∧
    (readwise_update_document_request document_id title author summary location
      tags).body = build_updates title author summary location tags ∧
    (∀ kv ∈ build_updates title author summary location tags,
      kv.1 = "title" ∨ kv.1 = "author" ∨ kv.1 = "summary" ∨ kv.1 = "location" ∨
        kv.1 = "tags") ∧
    (∀ v : JValue, ("title", v) ∈ build_updates title author summary location tags ↔
      ∃ s, title = some s ∧ s ≠ "" ∧ v = JValue.str s) ∧
    (∀ v : JValue, ("author", v) ∈ build_updates title author summary location tags ↔
      ∃ s, author = some s ∧ s ≠ "" ∧ v = JValue.str s) ∧
    (∀ v : JValue, ("summary", v) ∈ build_updates title author summary location tags ↔
      ∃ s, summary = some s ∧ s ≠ "" ∧ v = JValue.str s) ∧
    (∀ v : JValue, ("location", v) ∈ build_updates title author summary location tags ↔
      ∃ s, location = some s ∧ s ≠ "" ∧ v = JValue.str s) ∧
    (∀ v : JValue, ("tags", v) ∈ build_updates title author summary location tags ↔
      ∃ l, tags = some l ∧ l ≠ [] ∧ v = JValue.arr l) := by
  refine ⟨rfl, rfl, ?_, ?_, ?_, ?_, ?_, ?_⟩
  · intro kv hkv
    rcases (mem_build_updates title author summary location tags kv).mp hkv with
      ⟨s, h1, h2, h3⟩ | ⟨s, h1, h2, h3⟩ | ⟨s, h1, h2, h3⟩ | ⟨s, h1, h2, h3⟩ |
      ⟨l, h1, h2, h3⟩ <;>
      subst h3 <;> simp
  all_goals intro v
  all_goals rw [mem_build_updates]
  all_goals simp [Prod.mk.injEq]

/-! ### Client-side filter helpers -/

theorem author_match_true {al : String} {d : Doc} (h : author_match al d = true) :
    ∃ s, dget d "author" = some (JValue.str s) ∧ s ≠ "" := by
  unfold author_match at h
  cases hg : dget d "author" with
  | none => rw [hg] at h; exact absurd h Bool.false_ne_true
  | some v =>
    cases v with
    | null => rw [hg] at h; exact absurd h Bool.false_ne_true
    | arr xs => rw [hg] at h; exact absurd h Bool.false_ne_true
    | str s =>
      rw [hg] at h
      refine ⟨s, rfl, ?_⟩
      have hb : (!(s == "")) = true := (Bool.and_eq_true _ _ |>.mp h).1
      simpa using hb

theorem site_name_match_true {sl : String} {d : Doc} (h : site_name_match sl d = true) :
    ∃ s, dget d "site_name" = some (JValue.str s) ∧ s ≠ "" := by
  unfold site_name_match at h
  cases hg : dget d "site_name" with
  | none => rw [hg] at h; exact absurd h Bool.false_ne_true
  | some v =>
    cases v with
    | null => rw [hg] at h; exact absurd h Bool.false_ne_true
    | arr xs => rw [hg] at h; exact absurd h Bool.false_ne_true
    | str s =>
      rw [hg] at h
      refine ⟨s, rfl, ?_⟩
      have hb : (!(s == "")) = true := (Bool.and_eq_true _ _ |>.mp h).1
      simpa using hb

/-- Claim C10: with a (truthy) author filter, the tool excludes every
document whose author field is missing or null (or empty) — not only
documents whose author is present but fails the case-insensitive substring
match; likewise for site_name; with no filter supplied, every document is
retained, including those with missing fields. -/
theorem C10_missing_field_filtering (a sn : String) (ha : a ≠ "") (hsn : sn ≠ "")
    (docs : List Doc) :
    (∀ d ∈ filter_documents (some a) none docs,
      ∃ s, dget d "author" = some (JValue.str s) ∧ s ≠ "") ∧
    (∀ d ∈ docs, (dget d "author" = none ∨ dget d "author" = some JValue.null) →
      d ∉ filter_documents (some a) none docs) ∧
    (∀ d ∈ filter_documents none (some sn) docs,
      ∃ s, dget d "site_name" = some (JValue.str s) ∧ s ≠ "") ∧
    (∀ d ∈ docs, (dget d "site_name" = none ∨ dget d "site_name" = some JValue.null) →
      d ∉ filter_documents none (some sn) docs) ∧
    filter_documents none none docs = docs := by
  have hta : pyTruthyStr (some a) = true := by simp [pyTruthyStr, ha]
  have htsn : pyTruthyStr (some sn) = true := by simp [pyTruthyStr, hsn]
  have hnone : pyTruthyStr none = false := rfl
  have hfa : filter_documents (some a) none docs =
      docs.filter (author_match (pyLower a)) := by
    simp only [filter_documents, hta, hnone, Bool.false_eq_true, if_true, if_false,
      ite_true, ite_false, Option.getD_some]
  have hfs : filter_documents none (some sn) docs =
      docs.filter (site_name_match (pyLower sn)) := by
    simp only [filter_documents, htsn, hnone, Bool.false_eq_true, if_true, if_false,
      ite_true, ite_false, Option.getD_some]
  refine ⟨?_, ?_, ?_, ?_, by
    simp only [filter_documents, hnone, Bool.false_eq_true, if_false, ite_false]⟩
  · intro d hd
    rw [hfa] at hd
    exact author_match_true (List.mem_filter.mp hd).2
  · intro d _ hnull habs
    rw [hfa] at habs
    obtain ⟨s, hs, -⟩ := author_match_true (List.mem_filter.mp habs).2
    rcases hnull with hn | hn <;> rw [hn] at hs <;> simp at hs
  · intro d hd
    rw [hfs] at hd
    exact site_name_match_true (List.mem_filter.mp hd).2
  · intro d _ hnull habs
    rw [hfs] at habs
    obtain ⟨s, hs, -⟩ := site_name_match_true (List.mem_filter.mp habs).2
    rcases hnull with hn | hn <;> rw [hn] at hs <;> simp at hs

/-- Claim C10 witness: filtering three concrete documents — a matching
author, a null author, and a document with no author field — keeps exactly
the first; with no filter all three are kept. -/
theorem C10_missing_field_filtering_witness :
    filter_documents (some "ja") none
        [[("author", JValue.str "Jane")], [("author", JValue.null)], []] =
      [[("author", JValue.str "Jane")]] ∧
    filter_documents none none
        [[("author", JValue.str "Jane")], [("author", JValue.null)], []] =
      [[("author", JValue.str "Jane")], [("author", JValue.null)], []] := by
  have h := C10_missing_field_filtering "ja" "x" (by decide) (by decide)
    [[("author", JValue.str "Jane")], [("author", JValue.null)], []]
  exact ⟨by decide, h.2.2.2.2⟩

end Readwise
